import Mathlib

/-!
Verification development for the `bytelines` crate: a shallow embedding of the
line-splitting core (`src/util.rs`, `src/std.rs`, `src/tokio.rs`) and of the
legacy in-crate splitter (`src/lib.rs`), together with theorems about the
delimiter-stripping algorithm, the fetch operation, and the owned-copy
adapters.

Bytes are modelled as `Nat` (the algorithm only compares bytes against
10 = 0x0A and 13 = 0x0D).  I/O errors are modelled as an opaque numeric code
that the code passes through verbatim.  Rust panics (out-of-bounds indexing,
usize underflow) are modelled explicitly by a `fault` result so that safety
claims are statable.
-/

namespace Bytelines

/-- Outcome of one `read_until` call as the core sees it: `ok n` for `Ok(n)`
(`n` bytes appended) or `err e` for `Err(e)`. Mirrors `std::io::Result<usize>`
in `handle_line`'s signature. -/
inductive ReadResult where
  | ok (n : Nat)
  | err (e : Nat)
  deriving DecidableEq, Repr

/-- Result of handling one read: `fault` models a Rust panic (out-of-bounds
index / usize underflow), `eos` models `None`, `line l` models
`Some(Ok(&buffer[..n]))`, `failure e` models `Some(Err(e))`. -/
inductive HandleResult where
  | fault
  | eos
  | line (l : List Nat)
  | failure (e : Nat)
  deriving DecidableEq, Repr

/-- Embedding of `handle_line` from `src/util.rs`.  On `Err(e)` it short
circuits with the error; on `Ok(0)` it signals end of stream; on `Ok(n)` it
pops a trailing 0x0A, and only then — guarded by `n > 0` — a 0x0D immediately
before it, returning `&buffer[..n]`.  Every Rust index `buffer[i]` is modelled
by the fallible `buffer[i]?`, with `fault` for the panicking branch. -/
def handle_line (input : ReadResult) (buffer : List Nat) : HandleResult :=
  match input with
  | ReadResult.err e => HandleResult.failure e
  | ReadResult.ok 0 => HandleResult.eos
  | ReadResult.ok n =>
    match buffer[n - 1]? with
    | none => HandleResult.fault
    | some b =>
      if b = 10 then
        let m := n - 1
        if 0 < m then
          match buffer[m - 1]? with
          | none => HandleResult.fault
          | some c =>
            if c = 13 then HandleResult.line (buffer.take (m - 1))
            else HandleResult.line (buffer.take m)
        else HandleResult.line (buffer.take m)
      else HandleResult.line (buffer.take n)

/-- Embedding of the inline line handling in `RefByteLines::next` from
`src/lib.rs` (lines 145–175).  It is the same algorithm as `handle_line`
except that the carriage-return test `self.buffer[n - 1] == b'\r'` is NOT
guarded by `n > 0`: when the popped delimiter was the only byte, `n` is `0`
and `n - 1` underflows `usize` (debug: arithmetic panic; release: wraps to an
enormous index and the indexing panics), modelled as `fault`. -/
def refHandleLine (input : ReadResult) (buffer : List Nat) : HandleResult :=
  match input with
  | ReadResult.err e => HandleResult.failure e
  | ReadResult.ok 0 => HandleResult.eos
  | ReadResult.ok n =>
    match buffer[n - 1]? with
    | none => HandleResult.fault
    | some b =>
      if b = 10 then
        let m := n - 1
        if 0 < m then
          match buffer[m - 1]? with
          | none => HandleResult.fault
          | some c =>
            if c = 13 then HandleResult.line (buffer.take (m - 1))
            else HandleResult.line (buffer.take m)
        else HandleResult.fault
      else HandleResult.line (buffer.take n)

/-- The stripped content length of the spec's "Stripping algorithm"
(section 4.1), transcribed from the spec's words for comparison with the
code's `handle_line`: pop a trailing delimiter 0x0A, then, only while the
remaining length is still positive, a carriage return 0x0D immediately
before it (so a lone trailing carriage return is preserved). -/
def specStripLen (n : Nat) (buffer : List Nat) : Nat :=
  if 0 < n ∧ buffer.getD (n - 1) 0 = 10 then
    if 0 < n - 1 ∧ buffer.getD (n - 1 - 1) 0 = 13 then n - 1 - 1 else n - 1
  else n

/-- One `read_until(b'\n', &mut buf)` outcome supplied by the byte source:
either `Err(e)` or `Ok` with the concrete bytes appended (the returned count
is their length).  A source is the list of outcomes of successive calls; an
exhausted list models a source that keeps reporting `Ok(0)`. -/
inductive ReadOutcome where
  | bytes (bs : List Nat)
  | err (e : Nat)
  deriving DecidableEq, Repr

/-- The byte source: outcomes of successive `read_until` calls. -/
abbrev Source : Type := List ReadOutcome

/-- State of a line splitter (`ByteLines` in `src/std.rs`, `AsyncByteLines`
in `src/tokio.rs` — both hold exactly a buffer and a reader). -/
structure ByteLines where
  buffer : List Nat
  reader : Source
  deriving DecidableEq, Repr

/-- One `read_until` call against the modelled source: pops the next outcome;
an exhausted source reports `Ok` with no bytes appended (end of stream). -/
def readUntil (reader : Source) : ReadOutcome × Source :=
  match reader with
  | [] => (ReadOutcome.bytes [], [])
  | o :: rest => (o, rest)

/-- Embedding of `<ByteLines as LendingIterator>::next` from `src/std.rs`
(lines 92–98): clear the buffer, `read_until(b'\n', &mut self.buffer)`, and
hand the outcome to `handle_line`. -/
def ByteLines.next (s : ByteLines) : HandleResult × ByteLines :=
  let cleared : List Nat := []
  match readUntil s.reader with
  | (ReadOutcome.err e, rest) =>
      (handle_line (ReadResult.err e) cleared, ⟨cleared, rest⟩)
  | (ReadOutcome.bytes bs, rest) =>
      let buf := cleared ++ bs
      (handle_line (ReadResult.ok buf.length) buf, ⟨buf, rest⟩)

/-- Result type of `AsyncByteLines::next` from `src/tokio.rs`:
`Result<Option<&[u8]>, Error>`, i.e. the `transpose()` of `handle_line`'s
`Option<Result<&[u8]>>`, plus the explicit panic marker. -/
inductive AsyncResult where
  | fault
  | ok (l : Option (List Nat))
  | err (e : Nat)
  deriving DecidableEq, Repr

/-- `Option<Result<_>>::transpose()` as applied in `AsyncByteLines::next`. -/
def transposeResult (r : HandleResult) : AsyncResult :=
  match r with
  | HandleResult.fault => AsyncResult.fault
  | HandleResult.eos => AsyncResult.ok none
  | HandleResult.line l => AsyncResult.ok (some l)
  | HandleResult.failure e => AsyncResult.err e

/-- Embedding of `AsyncByteLines::next` from `src/tokio.rs` (lines 69–76):
clear the buffer, await `read_until`, apply the shared `handle_line`, and
`transpose()` the result. The await point disappears in the embedding. -/
def AsyncByteLines.next (s : ByteLines) : AsyncResult × ByteLines :=
  let cleared : List Nat := []
  match readUntil s.reader with
  | (ReadOutcome.err e, rest) =>
      (transposeResult (handle_line (ReadResult.err e) cleared), ⟨cleared, rest⟩)
  | (ReadOutcome.bytes bs, rest) =>
      let buf := cleared ++ bs
      (transposeResult (handle_line (ReadResult.ok buf.length) buf), ⟨buf, rest⟩)

/-- Embedding of `RefByteLines::next` from `src/lib.rs` (lines 140–176):
clear the buffer, `read_until`, then the inline handling `refHandleLine`
(the variant without the `n > 0` guard on the carriage-return test). -/
def RefByteLines.next (s : ByteLines) : HandleResult × ByteLines :=
  let cleared : List Nat := []
  match readUntil s.reader with
  | (ReadOutcome.err e, rest) =>
      (refHandleLine (ReadResult.err e) cleared, ⟨cleared, rest⟩)
  | (ReadOutcome.bytes bs, rest) =>
      let buf := cleared ++ bs
      (refHandleLine (ReadResult.ok buf.length) buf, ⟨buf, rest⟩)

/-- One line item of an adapter's sequence: a successful owned line or an
error, mirroring `Result<Vec<u8>, Error>`. -/
inductive Item where
  | ok (l : List Nat)
  | err (e : Nat)
  deriving DecidableEq, Repr

/-- The sequence of results of driving the core's fetch directly
(`while let Some(line) = lines.next()`), up to `fuel` calls: lines and
errors are collected, end of stream stops the loop. -/
def coreRun : Nat → ByteLines → List Item
  | 0, _ => []
  | Nat.succ fuel, s =>
    match ByteLines.next s with
    | (HandleResult.line l, s') => Item.ok l :: coreRun fuel s'
    | (HandleResult.failure e, s') => Item.err e :: coreRun fuel s'
    | (HandleResult.eos, _) => []
    | (HandleResult.fault, _) => []

/-- The sequence produced by `ByteLinesIter::next` from `src/std.rs`
(lines 136–138): every call delegates to the core's fetch and copies the
borrowed view into an owned vector (`.map(|r| r.map(|s| s.to_vec()))`,
the copy modelled by `List.map id`). -/
def iterRun : Nat → ByteLines → List Item
  | 0, _ => []
  | Nat.succ fuel, s =>
    match ByteLines.next s with
    | (HandleResult.line l, s') => Item.ok (List.map id l) :: iterRun fuel s'
    | (HandleResult.failure e, s') => Item.err e :: iterRun fuel s'
    | (HandleResult.eos, _) => []
    | (HandleResult.fault, _) => []

/-- The sequence produced by the `Stream` built by
`AsyncByteLines::into_stream` from `src/tokio.rs` (lines 79–87):
`try_unfold` calls `lines.next().await?`, so an `Err` is yielded and the
unfolding state is gone — the stream produces nothing after an error. -/
def streamRun : Nat → ByteLines → List Item
  | 0, _ => []
  | Nat.succ fuel, s =>
    match AsyncByteLines.next s with
    | (AsyncResult.ok (some l), s') => Item.ok (List.map id l) :: streamRun fuel s'
    | (AsyncResult.ok none, _) => []
    | (AsyncResult.err e, _) => [Item.err e]
    | (AsyncResult.fault, _) => []

/-- Truncation of an item sequence at its first error: the error is kept as
the final item and everything after it is dropped. -/
def truncAtError : List Item → List Item
  | [] => []
  | Item.ok l :: rest => Item.ok l :: truncAtError rest
  | Item.err e :: _ => [Item.err e]

/-- The splitter state after one fetch. -/
def nextState (s : ByteLines) : ByteLines := (ByteLines.next s).2

/-- The splitter state after `k` successive fetches. -/
def iterStates : Nat → ByteLines → ByteLines
  | 0, s => s
  | Nat.succ k, s => iterStates k (nextState s)

/-- The view carried by a `line` result (empty for the other results). -/
def viewOf (r : HandleResult) : List Nat :=
  match r with
  | HandleResult.line l => l
  | _ => []

/-! ## Helper lemmas -/

/-- On a read of `n` in-bounds bytes, `handle_line` returns the buffer's first
`specStripLen n buffer` bytes: the code's stripping agrees with the spec's. -/
theorem handle_line_ok (n : Nat) (buffer : List Nat) (h1 : 0 < n) (h2 : n ≤ buffer.length) :
    handle_line (ReadResult.ok n) buffer =
      HandleResult.line (buffer.take (specStripLen n buffer)) := by
  obtain ⟨k, rfl⟩ : ∃ k, n = k + 1 := ⟨n - 1, by omega⟩
  have hk : k < buffer.length := by omega
  unfold handle_line specStripLen
  simp only [Nat.add_sub_cancel, List.getElem?_eq_getElem hk,
    List.getD_eq_getElem buffer 0 hk]
  by_cases hb : buffer[k] = 10
  · simp only [hb, true_and, Nat.lt_irrefl, if_pos h1, reduceIte]
    by_cases hkpos : 0 < k
    · have hk1 : k - 1 < buffer.length := by omega
      simp only [if_pos hkpos, List.getElem?_eq_getElem hk1,
        List.getD_eq_getElem buffer 0 hk1, hkpos, true_and]
      by_cases hc : buffer[k - 1] = 13
      · simp [hc]
      · simp [hc]
    · have hk0 : k = 0 := by omega
      subst hk0
      simp
  · simp [hb]

theorem specStripLen_le (n : Nat) (buffer : List Nat) : specStripLen n buffer ≤ n := by
  unfold specStripLen
  split <;> [split <;> omega; omega]

theorem specStripLen_lt (n : Nat) (buffer : List Nat) (h : buffer.getD (n - 1) 0 = 10)
    (hn : 0 < n) : specStripLen n buffer ≤ n - 1 := by
  unfold specStripLen
  rw [if_pos ⟨hn, h⟩]
  split <;> omega

theorem specStripLen_eq_of_ne (n : Nat) (buffer : List Nat)
    (h : buffer.getD (n - 1) 0 ≠ 10) : specStripLen n buffer = n := by
  unfold specStripLen
  rw [if_neg]
  rintro ⟨-, h10⟩
  exact h h10

/-- If the bytes before position `n - 1` contain no delimiter (as `read_until`
guarantees), the stripped view contains no delimiter byte. -/
theorem no_delim_in_view (n : Nat) (buffer : List Nat) (h1 : 0 < n)
    (hin : ∀ i, i + 1 < n → buffer.getD i 0 ≠ 10) :
    ¬ 10 ∈ buffer.take (specStripLen n buffer) := by
  intro hmem
  obtain ⟨i, hi, hgi⟩ := List.mem_iff_getElem.mp hmem
  have hbnd : i < specStripLen n buffer ∧ i < buffer.length := by
    rw [List.length_take] at hi
    omega
  have hbuf : buffer.getD i 0 = 10 := by
    rw [List.getD_eq_getElem buffer 0 hbnd.2]
    rw [List.getElem_take] at hgi
    exact hgi
  by_cases hlast : buffer.getD (n - 1) 0 = 10
  · have := specStripLen_lt n buffer hlast h1
    exact hin i (by omega) hbuf
  · have := specStripLen_eq_of_ne n buffer hlast
    rcases Nat.lt_or_ge (i + 1) n with h | h
    · exact hin i h hbuf
    · have : i = n - 1 := by omega
      subst this
      exact hlast hbuf

/-- The asynchronous fetch is the synchronous fetch with the result
transposed (`Option<Result<_>>` to `Result<Option<_>>`). -/
theorem asyncNext_eq (s : ByteLines) :
    AsyncByteLines.next s = (transposeResult (ByteLines.next s).1, (ByteLines.next s).2) := by
  obtain ⟨buf, reader⟩ := s
  cases reader with
  | nil => rfl
  | cons o rest => cases o <;> rfl

/-- Fetch on an exhausted source: end of stream, source stays exhausted. -/
theorem next_exhausted (buf : List Nat) :
    ByteLines.next ⟨buf, []⟩ = (HandleResult.eos, ⟨[], []⟩) := rfl

/-- Fetch on a failing read: the error is passed through and exactly one
read outcome is consumed. -/
theorem next_err (buf : List Nat) (e : Nat) (rest : Source) :
    ByteLines.next ⟨buf, ReadOutcome.err e :: rest⟩ = (HandleResult.failure e, ⟨[], rest⟩) := rfl

/-- Fetch on a successful read of `bs`: the cleared buffer holds exactly
`bs`, and `handle_line` is applied to it with `n` its length. -/
theorem next_bytes (buf : List Nat) (bs : List Nat) (rest : Source) :
    ByteLines.next ⟨buf, ReadOutcome.bytes bs :: rest⟩ =
      (handle_line (ReadResult.ok bs.length) bs, ⟨bs, rest⟩) := rfl

/-- The std owned-copy iterator produces exactly the core's sequence. -/
theorem iterRun_eq_coreRun (fuel : Nat) (s : ByteLines) :
    iterRun fuel s = coreRun fuel s := by
  induction fuel generalizing s with
  | zero => rfl
  | succ fuel ih =>
    rcases h : ByteLines.next s with ⟨r, s'⟩
    cases r <;> simp [iterRun, coreRun, h, ih, List.map_id]

/-- The tokio stream produces the core's sequence truncated at its first
error (`try_unfold` drops the unfolding state when `?` propagates an `Err`). -/
theorem streamRun_eq_trunc (fuel : Nat) (s : ByteLines) :
    streamRun fuel s = truncAtError (coreRun fuel s) := by
  induction fuel generalizing s with
  | zero => rfl
  | succ fuel ih =>
    rcases h : ByteLines.next s with ⟨r, s'⟩
    have ha := asyncNext_eq s
    rw [h] at ha
    cases r <;> simp [streamRun, coreRun, h, ha, ih, transposeResult, truncAtError, List.map_id]

/-- On an exhausted source every further fetch leaves the reader exhausted. -/
theorem iterStates_reader_nil (k : Nat) (buf : List Nat) :
    (iterStates k ⟨buf, []⟩).reader = [] := by
  induction k generalizing buf with
  | zero => rfl
  | succ k ih =>
    show (iterStates k (nextState ⟨buf, []⟩)).reader = []
    rw [show nextState ⟨buf, []⟩ = (⟨[], []⟩ : ByteLines) from rfl]
    exact ih []

/-! ## Claims -/

/-- C1: for every fetch appending `n > 0` in-bounds bytes, the returned view
is the buffer's first `specStripLen n buffer` bytes (pop a trailing 0x0A,
then, only if length stays positive, a 0x0D immediately before it);
consequently the delimiter never appears in a view (given `read_until`'s
guarantee that only the last byte can be a delimiter), and a line without a
trailing delimiter — in particular one ending in a lone carriage return —
is returned whole. -/
theorem C1_strip_algorithm (n : Nat) (buffer : List Nat)
    (h1 : 0 < n) (h2 : n ≤ buffer.length) :
    handle_line (ReadResult.ok n) buffer =
        HandleResult.line (buffer.take (specStripLen n buffer))
      ∧ ((∀ i, i + 1 < n → buffer.getD i 0 ≠ 10) →
        ¬ 10 ∈ buffer.take (specStripLen n buffer))
      ∧ (buffer.getD (n - 1) 0 ≠ 10 → specStripLen n buffer = n) :=
  ⟨handle_line_ok n buffer h1 h2,
   fun hin => no_delim_in_view n buffer h1 hin,
   fun h => specStripLen_eq_of_ne n buffer h⟩

/-- Witness for C1 at the one-byte buffer holding a lone carriage return. -/
theorem C1_strip_algorithm_witness :
    (0 < 1 ∧ 1 ≤ ([13] : List Nat).length) ∧
      (handle_line (ReadResult.ok 1) [13] =
          HandleResult.line (([13] : List Nat).take (specStripLen 1 [13]))
        ∧ ((∀ i, i + 1 < 1 → ([13] : List Nat).getD i 0 ≠ 10) →
          ¬ 10 ∈ ([13] : List Nat).take (specStripLen 1 [13]))
        ∧ (([13] : List Nat).getD (1 - 1) 0 ≠ 10 → specStripLen 1 [13] = 1)) :=
  ⟨⟨by decide, by decide⟩, C1_strip_algorithm 1 [13] (by decide) (by decide)⟩

/-- C2: on the input consisting of the single delimiter byte 0x0A, the
`handle_line`-based fetch (`src/std.rs`, `src/tokio.rs`) yields one empty
view and then end of stream, and in general a `[10]` chunk (two consecutive
delimiters) yields an empty view; but the legacy `RefByteLines::next` in
`src/lib.rs`, whose carriage-return test lacks the `n > 0` guard, faults
(usize underflow / out-of-bounds index) on the very same input instead of
completing. -/
theorem C2_single_delimiter :
    coreRun 2 ⟨[], [ReadOutcome.bytes [10]]⟩ = [Item.ok []]
  ∧ ByteLines.next ⟨[], [ReadOutcome.bytes [10]]⟩ = (HandleResult.line [], ⟨[10], []⟩)
  ∧ (ByteLines.next (nextState ⟨[], [ReadOutcome.bytes [10]]⟩)).1 = HandleResult.eos
  ∧ (∀ (buf : List Nat) (rest : Source),
      ByteLines.next ⟨buf, ReadOutcome.bytes [10] :: rest⟩ =
        (HandleResult.line [], ⟨[10], rest⟩))
  ∧ refHandleLine (ReadResult.ok 1) [10] = HandleResult.fault
  ∧ RefByteLines.next ⟨[], [ReadOutcome.bytes [10]]⟩ = (HandleResult.fault, ⟨[10], []⟩) :=
  ⟨by decide, by decide, by decide, fun buf rest => rfl, by decide, by decide⟩

/-- C3 counterexample: on a source whose first read fails and whose second
read returns the line "a\n", the tokio stream stops after the error while
the core, fetched directly, yields the error and then the line — so the
stream's item sequence is not element-for-element equal to the core's. -/
theorem C3_counterexample :
    streamRun 2 ⟨[], [ReadOutcome.err 5, ReadOutcome.bytes [97, 10]]⟩ = [Item.err 5]
  ∧ coreRun 2 ⟨[], [ReadOutcome.err 5, ReadOutcome.bytes [97, 10]]⟩
      = [Item.err 5, Item.ok [97]]
  ∧ streamRun 2 ⟨[], [ReadOutcome.err 5, ReadOutcome.bytes [97, 10]]⟩ ≠
      coreRun 2 ⟨[], [ReadOutcome.err 5, ReadOutcome.bytes [97, 10]]⟩ := by
  decide

/-- C3 (amended): the std `ByteLinesIter` sequence equals the core's
sequence element-for-element for every input; the tokio stream's sequence
equals the core's truncated at its first error (hence they agree exactly on
every input on which no read fails). -/
theorem C3_owned_copy_equivalence :
    (∀ (fuel : Nat) (s : ByteLines), iterRun fuel s = coreRun fuel s)
  ∧ (∀ (fuel : Nat) (s : ByteLines), streamRun fuel s = truncAtError (coreRun fuel s)) :=
  ⟨iterRun_eq_coreRun, streamRun_eq_trunc⟩

/-- C4 counterexample: after a failing first read, the std owned-copy
iterator does not signal completion — its next call delegates to the core
again and yields the line the source then produces. -/
theorem C4_counterexample :
    iterRun 2 ⟨[], [ReadOutcome.err 7, ReadOutcome.bytes [98, 10]]⟩
      = [Item.err 7, Item.ok [98]] := by
  decide

/-- C4 (amended): when a read fails, the tokio stream yields the failure as
its final item and produces nothing afterwards; the std owned-copy iterator
yields the failure and then continues exactly as the core does on the rest
of the source (completion only once the source reports end of stream). -/
theorem C4_failure_terminality :
    (∀ (fuel : Nat) (buf : List Nat) (e : Nat) (rest : Source),
      streamRun (fuel + 1) ⟨buf, ReadOutcome.err e :: rest⟩ = [Item.err e])
  ∧ (∀ (fuel : Nat) (buf : List Nat) (e : Nat) (rest : Source),
      iterRun (fuel + 1) ⟨buf, ReadOutcome.err e :: rest⟩ =
        Item.err e :: iterRun fuel ⟨[], rest⟩) :=
  ⟨fun _ _ _ _ => rfl, fun _ _ _ _ => rfl⟩

/-- C5: the synchronous fetch and the asynchronous fetch agree on every
state: the async result is exactly the transpose of the sync result (same
successor state), and the transpose is injective, so the classification —
line contents, end-of-stream signals, propagated errors — is identical;
both definitions consume the shared `handle_line`. -/
theorem C5_sync_async_agreement :
    (∀ s : ByteLines,
      AsyncByteLines.next s = (transposeResult (ByteLines.next s).1, (ByteLines.next s).2))
  ∧ Function.Injective transposeResult :=
  ⟨asyncNext_eq, fun r r' h => by
    cases r <;> cases r' <;> simp_all [transposeResult]⟩

/-- C6: a read appending 0 bytes yields the distinct end-of-stream result,
an empty line yields a successful zero-length view, the two are different
results, and on the empty source the very first fetch is end of stream. -/
theorem C6_eos_distinct_from_empty :
    (∀ buffer : List Nat, handle_line (ReadResult.ok 0) buffer = HandleResult.eos)
  ∧ handle_line (ReadResult.ok 1) [10] = HandleResult.line []
  ∧ HandleResult.line [] ≠ HandleResult.eos
  ∧ (∀ buf : List Nat, (ByteLines.next ⟨buf, []⟩).1 = HandleResult.eos) :=
  ⟨fun _ => rfl, by decide, by decide, fun _ => rfl⟩

/-- C7: on an exhausted source (every further read reports 0 appended
bytes), one fetch returns end of stream and leaves the source exhausted,
and every later fetch, after any number of intervening fetches, still
returns end of stream. -/
theorem C7_idempotent_exhaustion :
    (∀ buf : List Nat, ByteLines.next ⟨buf, []⟩ = (HandleResult.eos, ⟨[], []⟩))
  ∧ (∀ (k : Nat) (buf : List Nat),
      (ByteLines.next (iterStates k ⟨buf, []⟩)).1 = HandleResult.eos) := by
  refine ⟨next_exhausted, fun k buf => ?_⟩
  rcases hs : iterStates k ⟨buf, []⟩ with ⟨b, r⟩
  have hr : r = [] := by
    have := iterStates_reader_nil k buf
    rw [hs] at this
    exact this
  subst hr
  rfl

/-- C8: a failing read is returned to the caller of that very fetch,
verbatim and uninterpreted, in both adapters, and exactly one read outcome
is consumed — the rest of the source is untouched, so no retry happens
within the call. -/
theorem C8_error_verbatim :
    (∀ (buf : List Nat) (e : Nat) (rest : Source),
      ByteLines.next ⟨buf, ReadOutcome.err e :: rest⟩ = (HandleResult.failure e, ⟨[], rest⟩))
  ∧ (∀ (buf : List Nat) (e : Nat) (rest : Source),
      AsyncByteLines.next ⟨buf, ReadOutcome.err e :: rest⟩ = (AsyncResult.err e, ⟨[], rest⟩)) :=
  ⟨next_err, fun _ _ _ => rfl⟩

/-- C9: the fetch clears the buffer first, so its outcome is independent of
any residue in the buffer; after a successful read the buffer holds exactly
the bytes appended by this call, and any returned view is a prefix (a
`take`) of those bytes — never residue from a prior line. -/
theorem C9_clear_before_read :
    (∀ s : ByteLines, ByteLines.next s = ByteLines.next ⟨[], s.reader⟩)
  ∧ (∀ (buf bs : List Nat) (rest : Source),
      ByteLines.next ⟨buf, ReadOutcome.bytes bs :: rest⟩ =
        (handle_line (ReadResult.ok bs.length) bs, ⟨bs, rest⟩))
  ∧ (∀ (buf bs : List Nat) (rest : Source), ∃ k,
      viewOf (ByteLines.next ⟨buf, ReadOutcome.bytes bs :: rest⟩).1 = bs.take k) := by
  refine ⟨?_, fun buf bs rest => next_bytes buf bs rest, fun buf bs rest => ?_⟩
  · rintro ⟨b, reader⟩
    cases reader with
    | nil => rfl
    | cons o rest => cases o <;> rfl
  · rw [next_bytes]
    rcases bs with _ | ⟨x, xs⟩
    · exact ⟨0, rfl⟩
    · refine ⟨specStripLen (x :: xs).length (x :: xs), ?_⟩
      rw [handle_line_ok (x :: xs).length (x :: xs) (by simp) (Nat.le_refl _)]
      rfl

/-- C10: for every read outcome `Ok(n)` with `1 ≤ n ≤ buffer.length`,
`handle_line` performs only in-bounds indexing — the fault branch that
models a Rust panic is unreachable — and it totally returns a line. -/
theorem C10_in_bounds_total (n : Nat) (buffer : List Nat)
    (h1 : 1 ≤ n) (h2 : n ≤ buffer.length) :
    handle_line (ReadResult.ok n) buffer ≠ HandleResult.fault
  ∧ ∃ l, handle_line (ReadResult.ok n) buffer = HandleResult.line l := by
  have h := handle_line_ok n buffer h1 h2
  exact ⟨by simp [h], ⟨_, h⟩⟩

/-- Witness for C10 at the one-byte buffer holding a bare delimiter (the
line consisting of only 0x0A, where the guard matters). -/
theorem C10_in_bounds_total_witness :
    (1 ≤ 1 ∧ 1 ≤ ([10] : List Nat).length) ∧
      (handle_line (ReadResult.ok 1) [10] ≠ HandleResult.fault
        ∧ ∃ l, handle_line (ReadResult.ok 1) [10] = HandleResult.line l) :=
  ⟨⟨by decide, by decide⟩, C10_in_bounds_total 1 [10] (by decide) (by decide)⟩

end Bytelines
